import Mathlib

/-!
# Verification of the mdview terminal markdown browser (glow.js)

Shallow embedding of the second (current) version of `glow.js`:
the renderer post-processing passes, the recursive markdown file
discovery, the in-file search, the viewer handoff (`showWithLess`) and
the interactive selector state machine (`inputHandler`).

JS strings are modelled as `String`/`List Char` (one `Char` per UTF-16
unit; all the characters involved are in the basic plane, where the two
coincide). The filesystem is modelled as a function
`String → Option String`: `some content` is a successful
`fs.readFileSync`, `none` is a read that throws.
-/

namespace Mdview

/-! ## String helpers (models of the JS string methods used by glow.js) -/

/-- JS `String.prototype.toLowerCase`, restricted to the ASCII range
(`Char.toLower` lower-cases exactly `A`-`Z`). -/
def lowerChars (l : List Char) : List Char := l.map Char.toLower

/-- JS `haystack.includes(needle)`: substring containment. -/
def containsSub (hay needle : List Char) : Bool :=
  match hay with
  | [] => needle.isEmpty
  | _ :: t => needle.isPrefixOf hay || containsSub t needle

/-- JS `str.split('\n')`: split on newline characters, keeping empty
segments (always returns at least one segment). -/
def splitNl : List Char → List (List Char)
  | [] => [[]]
  | c :: rest =>
    match splitNl rest with
    | [] => if c = '\n' then [[], []] else [[c]]
    | h :: t => if c = '\n' then [] :: h :: t else (c :: h) :: t

/-- JS `str.trim()`: strip leading and trailing whitespace. -/
def trimChars (l : List Char) : List Char :=
  ((l.dropWhile Char.isWhitespace).reverse.dropWhile Char.isWhitespace).reverse

/-- Node `path.basename`: the component after the last `/`. -/
def basenameOf (p : String) : String :=
  String.mk ((p.data.reverse.takeWhile (fun c => c ≠ '/')).reverse)

/-- Modelled from the spec: Node's `path.relative('.', p)` (an external
library call, not repository code); on the already-relative separator-free
paths this program produces it returns the path unchanged. -/
def relativeToCwd (p : String) : String := p

/-- Node `path.join(dir, name)` for a plain entry name (no separators or
dot segments): concatenation with a `/`. -/
def pjoin (dir name : String) : String := dir ++ "/" ++ name

/-- JS `s.endsWith(suffix)`. -/
def jsEndsWith (s suffix : String) : Bool :=
  suffix.data.isSuffixOf s.data

/-- JS string comparison (`a <= b`): lexicographic on code units. -/
def jsLeChars : List Char → List Char → Bool
  | [], _ => true
  | _ :: _, [] => false
  | a :: as, b :: bs => if a = b then jsLeChars as bs else decide (a < b)

/-! ## Search index: `searchInFiles` (glow.js lines 378-401) -/

/-- One search result, as built by `searchInFiles`. -/
structure SearchResult where
  file : String
  basename : String
  relPath : String
  line : Nat
  preview : String
deriving DecidableEq

/-- The `for (let i = 0; ...)` scan with `break`: first line whose
lower-cased text contains the (already lower-cased) query, together with
its 0-based index. -/
def firstMatchLine (lowerQuery : List Char) : List (List Char) → Nat → Option (Nat × List Char)
  | [], _ => none
  | l :: rest, i =>
    if containsSub (lowerChars l) lowerQuery then some (i, l)
    else firstMatchLine lowerQuery rest (i + 1)

/-- Body of the `for (const file of files)` loop of `searchInFiles`: skip
the file when reading throws (the `try`/`catch`), otherwise push at most
one result — the first matching line — with 1-based line number and the
trimmed preview truncated to 80 characters. -/
def searchOne (fs : String → Option String) (lowerQuery : List Char) (file : String) :
    Option SearchResult :=
  match fs file with
  | none => none
  | some content =>
    match firstMatchLine lowerQuery (splitNl content.data) 0 with
    | none => none
    | some (i, l) =>
      some { file := file
             basename := basenameOf file
             relPath := relativeToCwd file
             line := i + 1
             preview := String.mk ((trimChars l).take 80) }

/-- glow.js `searchInFiles(files, query)`. -/
def searchInFiles (fs : String → Option String) (files : List String) (query : String) :
    List SearchResult :=
  files.filterMap (searchOne fs (lowerChars query.data))

/-- The result `searchInFiles` produces for a readable file under the
empty query: the very first line always matches (every string contains
the empty substring), so the result points at line 1 with that line as
preview. -/
def emptyQueryResult (file : String) (content : String) : SearchResult :=
  { file := file
    basename := basenameOf file
    relPath := relativeToCwd file
    line := 1
    preview := String.mk ((trimChars (content.data.takeWhile (fun c => c ≠ '\n'))).take 80) }

/-- A one-file filesystem used for concrete counterexamples. -/
def fsHello : String → Option String :=
  fun f => if f = "a.md" then some "hello" else none

example : searchInFiles fsHello ["a.md"] "HELL" =
    [⟨"a.md", "a.md", "a.md", 1, "hello"⟩] := by decide

example : searchInFiles fsHello ["a.md", "missing.md"] "" =
    [⟨"a.md", "a.md", "a.md", 1, "hello"⟩] := by decide

/-! ## Document store: `findMarkdownFiles` (glow.js lines 363-376)

A directory tree (the result of `fs.readdirSync(dir, withFileTypes)` at
every level) is modelled as a list of named entries; entries appear in
the order `readdirSync` yields them.
-/

/-- JS `s.startsWith(p)`. -/
def jsStartsWith (s p : String) : Bool :=
  p.data.isPrefixOf s.data

/-- One directory entry (a `fs.Dirent`): a plain file or a subdirectory
with its own entries. -/
inductive Entry where
  | file (name : String)
  | dir (name : String) (children : List Entry)

/-- JS `Array.prototype.sort()` on an array of path strings: sort
ascending in code-unit lexicographic (case-sensitive ordinal) order. -/
def sortPaths (l : List String) : List String :=
  l.mergeSort (fun a b => decide (a ≤ b))

mutual

/-- glow.js `findMarkdownFiles(dir)`: walk the entries of `dir`, then
return the collected paths sorted (`results.sort()`). -/
def findMarkdownFiles (dir : String) (entries : List Entry) : List String :=
  sortPaths (walkEntries dir entries)

/-- Body of the `for (const entry of entries)` loop of
`findMarkdownFiles`: recurse into a subdirectory unless its name starts
with `.` or equals `node_modules` (the subtree is pruned, not descended);
push a file iff its name ends in `.md` or `.markdown`. -/
def walkEntries (dir : String) : List Entry → List String
  | [] => []
  | .dir name children :: rest =>
    (if ¬ jsStartsWith name "." ∧ name ≠ "node_modules"
      then findMarkdownFiles (pjoin dir name) children
      else []) ++ walkEntries dir rest
  | .file name :: rest =>
    (if jsEndsWith name ".md" ∨ jsEndsWith name ".markdown"
      then [pjoin dir name]
      else []) ++ walkEntries dir rest

end

/-- Modelled from the spec for the refinement comparison, following its
words: "include a file iff its name ends in `.md` or `.markdown`;
exclude any directory whose name starts with `.` or equals a
conventional dependency-cache directory name; do not follow the
dependency-cache subtree at all" — the unsorted traversal-order
collection of exactly those files. -/
def resolveSpec (dir : String) : List Entry → List String
  | [] => []
  | .dir name children :: rest =>
    (if ¬ jsStartsWith name "." ∧ name ≠ "node_modules"
      then resolveSpec (pjoin dir name) children
      else []) ++ resolveSpec dir rest
  | .file name :: rest =>
    (if jsEndsWith name ".md" ∨ jsEndsWith name ".markdown"
      then [pjoin dir name]
      else []) ++ resolveSpec dir rest

/-! ## Renderer post-processing (glow.js `render`, lines 282-295)

The structural markdown conversion (`marked.parse`) is an external text
transformation service; `render` is modelled as that external function
followed by the repository's own post-processing passes, which are
embedded faithfully below.
-/

/-- Output for a maximal run of `pending` consecutive newlines under
`result.replace(/\n3OrMore/g, '\n\n')`: a run of three or more newline
characters becomes exactly two, shorter runs are kept. -/
def emitNl (pending : Nat) : List Char :=
  if 3 ≤ pending then ['\n', '\n'] else List.replicate pending '\n'

/-- Scan for the blank-line collapsing replace; `pending` counts the
newline run currently being read. -/
def collapseGo (pending : Nat) : List Char → List Char
  | [] => emitNl pending
  | c :: rest =>
    if c = '\n' then collapseGo (pending + 1) rest
    else emitNl pending ++ c :: collapseGo 0 rest

/-- Model of `result.replace` collapsing runs of 3 or more newlines to two. -/
def collapseNewlines (s : String) : String := String.mk (collapseGo 0 s.data)

/-- Model of a chalk styler at a given color level: at level 0 chalk
returns the text unchanged, otherwise it wraps it in its SGR escape
sequences. -/
def chalkWrap (lvl : Nat) (openSeq closeSeq : String) (t : List Char) : List Char :=
  if lvl = 0 then t else openSeq.data ++ t ++ closeSeq.data

/-- Model of `chalk.bold`. -/
def chalkBold (lvl : Nat) : List Char → List Char := chalkWrap lvl "\x1B[1m" "\x1B[22m"

/-- Model of `chalk.italic`. -/
def chalkItalic (lvl : Nat) : List Char → List Char := chalkWrap lvl "\x1B[3m" "\x1B[23m"

/-- Model of the code-span styler `chalk.bgHex` combined with `chalk.hex`. -/
def chalkCodeBg (lvl : Nat) : List Char → List Char :=
  chalkWrap lvl "\x1B[48;2;224;224;224m\x1B[38;2;0;0;0m" "\x1B[39m\x1B[49m"

/-- Scanner state for the double-asterisk global replace: `start` =
outside any candidate match; `one` = just read a single asterisk;
`inside run` = read the opening double asterisk and then `run` (asterisk
free); `closing run` = additionally read one asterisk of a potential
closing pair. -/
inductive BoldSt where
  | start
  | one
  | inside (run : List Char)
  | closing (run : List Char)

/-- Model of the global JS regex replace of double-asterisk spans
(opening pair, one or more non-asterisk characters, closing pair) by
`wrap` applied to the enclosed text, scanning left to right exactly as
the regex engine does: a failed candidate match re-starts one position
after its first character, and the enclosed run (asterisk free) can host
no new match. -/
def boldGo (wrap : List Char → List Char) : BoldSt → List Char → List Char
  | .start, [] => []
  | .one, [] => ['*']
  | .inside run, [] => '*' :: '*' :: run
  | .closing run, [] => '*' :: '*' :: run ++ ['*']
  | .start, c :: rest =>
    if c = '*' then boldGo wrap .one rest else c :: boldGo wrap .start rest
  | .one, c :: rest =>
    if c = '*' then boldGo wrap (.inside []) rest
    else '*' :: c :: boldGo wrap .start rest
  | .inside run, c :: rest =>
    if c = '*' then
      if run.isEmpty then '*' :: boldGo wrap (.inside []) rest
      else boldGo wrap (.closing run) rest
    else boldGo wrap (.inside (run ++ [c])) rest
  | .closing run, c :: rest =>
    if c = '*' then wrap run ++ boldGo wrap .start rest
    else '*' :: '*' :: run ++ '*' :: c :: boldGo wrap .start rest

/-- Model of the global JS regex replace of a single-delimiter span
(delimiter `d`, one or more non-`d` characters, closing `d`) by `wrap`
applied to the enclosed text — used for the italic and code-span passes.
The state is `none` outside a candidate match and `some run` after an
opening delimiter followed by the delimiter-free `run`. -/
def delimGo (d : Char) (wrap : List Char → List Char) :
    Option (List Char) → List Char → List Char
  | none, [] => []
  | some run, [] => d :: run
  | none, c :: rest =>
    if c = d then delimGo d wrap (some []) rest else c :: delimGo d wrap none rest
  | some run, c :: rest =>
    if c = d then
      if run.isEmpty then d :: delimGo d wrap (some []) rest
      else wrap run ++ delimGo d wrap none rest
    else delimGo d wrap (some (run ++ [c])) rest

/-- JS `array.join('\n')`. -/
def joinNl : List (List Char) → List Char
  | [] => []
  | [x] => x
  | x :: y :: rest => x ++ '\n' :: joinNl (y :: rest)

/-- Model of `result.split('\n').map(line => '  ' + line).join('\n')`. -/
def addMargin (l : List Char) : List Char :=
  joinNl ((splitNl l).map (fun ln => ' ' :: ' ' :: ln))

/-- The repository's own post-processing inside `render`, applied to the
text returned by the external conversion: collapse newline runs, the
three defensive marker passes (styled through the global chalk at color
level `lvl`), then the fixed 2-column left margin. -/
def renderPostChars (lvl : Nat) (parsed : List Char) : List Char :=
  addMargin
    (delimGo '`' (chalkCodeBg lvl) none
      (delimGo '*' (chalkItalic lvl) none
        (boldGo (chalkBold lvl) .start
          (collapseGo 0 parsed))))

/-- String-level wrapper of the `render` post-processing. -/
def renderPost (lvl : Nat) (parsed : String) : String :=
  String.mk (renderPostChars lvl parsed.data)

/-- glow.js `render(content)`: delegate the structural conversion to the
external service `parse`, then post-process. -/
def render (parse : String → String) (lvl : Nat) (content : String) : String :=
  renderPost lvl (parse content)

/-- Model of glow.js line 245, `chalk.level = 3`: executed
unconditionally at startup, so the effective chalk level of the program
is 3 whatever the environment, including when the color-disable variable
is set. -/
def programChalkLevel (_noColorSet : Bool) : Nat := 3

/-- Modelled from the spec: the conventional NO_COLOR handling of the
chalk library (dependency code, not in src/) — with the color-disable
variable set, chalk's auto-detected level is 0 and no styling codes are
emitted. glow.js overwrites this with `chalk.level = 3`. -/
def chalkAutoLevel (noColorSet : Bool) : Nat := if noColorSet then 0 else 3

/-- Whether a string contains the terminal escape character. -/
def containsEsc (s : String) : Bool := s.data.any (fun c => c = '\x1B')

/-- Whether a string contains a given character. -/
def containsChar (s : String) (c : Char) : Bool := s.data.any (fun x => x = c)

example : renderPost 0 "a\n\n\n\nb" = "  a\n  \n  b" := by decide

example : renderPost 3 "**bold**" = "  \x1B[1mbold\x1B[22m" := by decide

example : renderPost 3 "*it*" = "  \x1B[3mit\x1B[23m" := by decide

example : renderPost 0 "`c`" = "  c" := by decide

example : renderPost 3 "**a*b**" = "  *\x1B[3ma\x1B[23mb**" := by decide

/-! ## Viewer handoff: `showWithLess` (glow.js lines 297-335) -/

/-- The interactive selector state owned by `showFileSelector`
(glow.js lines 403-569): the mutable closure variables `selected`,
`searchMode`, `searchQuery`, `searchResults`, together with the raw-mode
switch of standard input (`process.stdin.setRawMode`). -/
structure BrowserState where
  selected : Nat
  searchMode : Bool
  searchQuery : String
  searchResults : List SearchResult
  rawMode : Bool
deriving DecidableEq

/-- The state `startSelector` (glow.js lines 449-459) installs: search
state cleared, cursor 0, raw input mode re-enabled. It is the
continuation passed to `showWithLess` on every open transition. -/
def startSelectorState : BrowserState :=
  { selected := 0, searchMode := false, searchQuery := "", searchResults := [], rawMode := true }

/-- Externally visible actions of one `inputHandler` invocation. -/
inductive Effect where
  | clearScreen
  | exitProcess
  | redraw
  | openViewer (file : String) (displayName : String) (startLine : Option Nat)
      (resume : BrowserState)
deriving DecidableEq

/-- Result of one `inputHandler` invocation: either a normal return with
the new state and its effects, or an exception escaping the `data`
listener (which crashes the Node process), recorded with the state at
the moment of the throw. -/
inductive StepResult where
  | ok (st : BrowserState) (effects : List Effect)
  | threw (msg : String) (st : BrowserState)
deriving DecidableEq

/-- The fixed part of the `less` argument vector (glow.js lines 310-317). -/
def lessBaseArgs : List String :=
  ["-R", "-i", "-M", "-Ps%Pb\\\\%", "-Pm%Pb\\\\%",
   "-PM%Pb\\\\%  ↑/↓:scroll  PgUp/PgDn:page  q:quit"]

/-- Arguments `showWithLess` passes to `less` (glow.js lines 310-321):
the initial-position directive `+line` is appended exactly when
`startLine` is present and greater than 1 (`startLine && startLine > 1`;
a missing or 0 `startLine` is falsy), followed by the transient file. -/
def lessArgs (startLine : Option Nat) (tmpFile : String) : List String :=
  (lessBaseArgs ++
    (match startLine with
     | some n => if n > 1 then ["+" ++ toString n] else []
     | none => [])) ++ [tmpFile]

/-- Outcome of the `less.on('close', ...)` callback. -/
inductive CloseOutcome where
  | resumed (st : BrowserState)
  | exitedProcess
  | threw (msg : String)
deriving DecidableEq

/-- Model of the `close` callback (glow.js lines 327-334): it runs for
any child exit code (the code is ignored); `fs.unlinkSync(tmpFile)` is
evaluated first, unconditionally — if the deletion throws, the exception
escapes and neither the continuation nor `process.exit(0)` runs;
otherwise the supplied continuation resumes the selector, or the process
exits when no continuation was given. -/
def lessCloseHandler (_exitCode : Nat) (unlinkOk : Bool)
    (onClose : Option BrowserState) : CloseOutcome :=
  if unlinkOk then
    match onClose with
    | some st => .resumed st
    | none => .exitedProcess
  else .threw "unlink failed"

/-! ## Browser state machine: `inputHandler` (glow.js lines 461-566) -/

/-- The printable-character guard `key.length === 1 && key >= ' '`
(code-unit string comparison). -/
def isPrintableKey (key : String) : Bool :=
  key.length == 1 && jsLeChars " ".data key.data

/-- glow.js `inputHandler(key)`, branch for branch in source order.
`fs.readFileSync` calls that fail are modelled as `.threw` (the source
has no `try`/`catch` around them, so the exception escapes the `data`
listener); note that the raw-mode teardown (`setRawMode(false)`,
`pause`, `removeAllListeners`, screen clear) happens before the read. -/
def inputHandler (fs : String → Option String) (files : List String)
    (st : BrowserState) (key : String) : StepResult :=
  if key = "\x03" then
    .ok st [.clearScreen, .exitProcess]
  else if st.searchMode then
    if key = "\x1B" then
      .ok { st with
            searchMode := false
            searchQuery := ""
            searchResults := []
            selected := 0 } [.redraw]
    else if key = "\x7F" ∨ key = "\x08" then
      let q := st.searchQuery.dropRight 1
      let rs := if q.length > 0 then searchInFiles fs files q else []
      .ok { st with
            searchQuery := q
            searchResults := rs
            selected := 0 } [.redraw]
    else if key = "\r" ∨ key = "\n" then
      if st.searchResults.length > 0 then
        match st.searchResults[st.selected]? with
        | none => .threw "TypeError: result is undefined" { st with rawMode := false }
        | some r =>
          match fs r.file with
          | none => .threw ("unreadable: " ++ r.file) { st with rawMode := false }
          | some _ =>
            .ok { st with rawMode := false }
              [.clearScreen, .openViewer r.file r.relPath (some r.line) startSelectorState]
      else .ok st []
    else if key = "\x1B[A" then
      if st.searchResults.length > 0 then
        .ok { st with selected :=
          if st.selected > 0 then st.selected - 1 else st.searchResults.length - 1 } [.redraw]
      else .ok st [.redraw]
    else if key = "\x1B[B" then
      if st.searchResults.length > 0 then
        .ok { st with selected :=
          if st.selected < st.searchResults.length - 1 then st.selected + 1 else 0 } [.redraw]
      else .ok st [.redraw]
    else if isPrintableKey key then
      let q := st.searchQuery ++ key
      .ok { st with
            searchQuery := q
            searchResults := searchInFiles fs files q
            selected := 0 } [.redraw]
    else .ok st []
  else
    if key = "q" then
      .ok st [.clearScreen, .exitProcess]
    else if key = "/" then
      .ok { st with
            searchMode := true
            searchQuery := ""
            searchResults := []
            selected := 0 } [.redraw]
    else if key = "\r" ∨ key = "\n" then
      match files[st.selected]? with
      | none => .threw "TypeError: file is undefined" { st with rawMode := false }
      | some f =>
        match fs f with
        | none => .threw ("unreadable: " ++ f) { st with rawMode := false }
        | some _ =>
          .ok { st with rawMode := false }
            [.clearScreen, .openViewer f (relativeToCwd f) none startSelectorState]
    else if key = "\x1B[A" ∨ key = "k" then
      .ok { st with selected :=
        if st.selected > 0 then st.selected - 1 else files.length - 1 } [.redraw]
    else if key = "\x1B[B" ∨ key = "j" then
      .ok { st with selected :=
        if st.selected < files.length - 1 then st.selected + 1 else 0 } [.redraw]
    else .ok st []

/-- Length of the active list: search results in Search mode, the file
list in Browse mode. -/
def activeLen (files : List String) (st : BrowserState) : Nat :=
  if st.searchMode then st.searchResults.length else files.length

/-- Keys that move the cursor up in the given mode: the up arrow, plus
`k` in Browse mode only (`k` is a printable query character in Search
mode). -/
def isUpKey (searchMode : Bool) (key : String) : Bool :=
  if searchMode then key == "\x1B[A" else key == "\x1B[A" || key == "k"

/-- Keys that move the cursor down in the given mode. -/
def isDownKey (searchMode : Bool) (key : String) : Bool :=
  if searchMode then key == "\x1B[B" else key == "\x1B[B" || key == "j"

/-- Fold a sequence of key events through `inputHandler` (a thrown
exception ends the run with the state at the throw). -/
def runKeys (fs : String → Option String) (files : List String)
    (st : BrowserState) : List String → BrowserState
  | [] => st
  | k :: ks =>
    match inputHandler fs files st k with
    | .ok st' _ => runKeys fs files st' ks
    | .threw _ st' => st'

/-- Filesystem used for concrete C7 instances: the scenario file from
the spec, with "Project Alpha kickoff" on line 5. -/
def fsNotes : String → Option String :=
  fun f => if f = "notes.md" then
    some "one\ntwo\nthree\nfour\nProject Alpha kickoff\nsix" else none

/-- Search state with one result at line 5 of `notes.md`. -/
def stNotes : BrowserState :=
  { selected := 0, searchMode := true, searchQuery := "alpha",
    searchResults := [⟨"notes.md", "notes.md", "notes.md", 5, "Project Alpha kickoff"⟩],
    rawMode := true }

/-- Filesystem on which every read throws. -/
def fsNone : String → Option String := fun _ => none

/-- Search state with a query that matched nothing. -/
def stNoMatches : BrowserState :=
  { selected := 0, searchMode := true, searchQuery := "zzz",
    searchResults := [], rawMode := true }

/-! ## Lemmas about the search index -/

theorem containsSub_nil_right (hay : List Char) : containsSub hay [] = true := by
  cases hay <;> simp [containsSub, List.isPrefixOf]

theorem splitNl_head (l : List Char) :
    ∃ r, splitNl l = (l.takeWhile (fun c => c ≠ '\n')) :: r := by
  induction l with
  | nil => exact ⟨[], rfl⟩
  | cons c rest ih =>
    obtain ⟨r, hr⟩ := ih
    by_cases hc : c = '\n'
    · subst hc
      exact ⟨rest.takeWhile (fun c => c ≠ '\n') :: r, by simp [splitNl, hr]⟩
    · exact ⟨r, by simp [splitNl, hr, List.takeWhile_cons, hc]⟩

theorem searchOne_empty_query (fs : String → Option String) (file : String) :
    searchOne fs [] file = (fs file).map (emptyQueryResult file) := by
  unfold searchOne
  cases hf : fs file with
  | none => rfl
  | some content =>
    obtain ⟨r, hr⟩ := splitNl_head content.data
    simp [hr, firstMatchLine, containsSub_nil_right, emptyQueryResult]

/-! ## Claim C1 -/

/-- C1, counterexample: `searchInFiles` applied to the empty query does
not return an empty result sequence — on a list with one readable file it
returns exactly one result (for that file, at line 1), because every line
contains the empty substring. -/
theorem C1_counterexample :
    searchInFiles fsHello ["a.md"] "" = [⟨"a.md", "a.md", "a.md", 1, "hello"⟩] ∧
    searchInFiles fsHello ["a.md"] "" ≠ [] := by decide

/-- C1 (amended): `searchInFiles` on the empty query returns exactly one
result per readable file — pointing at line 1, previewing the file's
first line — never an empty sequence for a non-empty readable file list.
(The UI-level "empty query ⇒ empty results" behavior is enforced by the
input handler, which sets the result list to `[]` without calling
`searchInFiles` when the query is empty.) -/
theorem C1_search_empty_query_one_per_readable_file
    (fs : String → Option String) (files : List String) :
    searchInFiles fs files "" =
      files.filterMap (fun f => (fs f).map (emptyQueryResult f)) ∧
    (searchInFiles fs files "").length = files.countP (fun f => (fs f).isSome) ∧
    (searchInFiles fs files "").all (fun r => r.line == 1) = true := by
  have hchar : searchInFiles fs files "" =
      files.filterMap (fun f => (fs f).map (emptyQueryResult f)) := by
    unfold searchInFiles
    exact List.filterMap_congr (fun f _ => searchOne_empty_query fs f)
  have hlen : ∀ l : List String,
      (l.filterMap (fun f => (fs f).map (emptyQueryResult f))).length =
        l.countP (fun f => (fs f).isSome) := by
    intro l
    induction l with
    | nil => rfl
    | cons f t ih =>
      cases hf : fs f <;> simp [List.filterMap_cons, hf, List.countP_cons, ih]
  have hall : ∀ l : List String,
      (l.filterMap (fun f => (fs f).map (emptyQueryResult f))).all
        (fun r => r.line == 1) = true := by
    intro l
    induction l with
    | nil => rfl
    | cons f t ih =>
      cases hf : fs f <;> simp [List.filterMap_cons, hf, ih, emptyQueryResult]
  exact ⟨hchar, by rw [hchar]; exact hlen files, by rw [hchar]; exact hall files⟩

/-! ## Lemmas about the renderer post-processing -/

theorem collapseGo_replicate (p n : Nat) (rest : List Char) :
    collapseGo p (List.replicate n '\n' ++ rest) = collapseGo (p + n) rest := by
  induction n generalizing p with
  | zero => simp
  | succ n ih =>
    have h1 : List.replicate (n + 1) '\n' ++ rest =
        '\n' :: (List.replicate n '\n' ++ rest) := by simp [List.replicate_succ]
    have h2 : p + 1 + n = p + (n + 1) := by omega
    rw [h1]
    simp only [collapseGo, if_pos rfl]
    rw [ih (p + 1), h2]
    simp

theorem collapseGo_append_nlfree (a rest : List Char) (ha : ∀ c ∈ a, c ≠ '\n') :
    collapseGo 0 (a ++ rest) = a ++ collapseGo 0 rest := by
  induction a with
  | nil => simp
  | cons c a ih =>
    have hc : c ≠ '\n' := ha c (by simp)
    have ha' : ∀ x ∈ a, x ≠ '\n' := fun x hx => ha x (by simp [hx])
    simp [collapseGo, hc, emitNl, ih ha']

theorem collapseGo_nlfree_id (l : List Char) (h : ∀ c ∈ l, c ≠ '\n') :
    collapseGo 0 l = l := by
  have := collapseGo_append_nlfree l [] h
  simpa [collapseGo, emitNl] using this

theorem collapseGo_pending_nlfree (p : Nat) (b : List Char) (hb : ∀ c ∈ b, c ≠ '\n') :
    collapseGo p b = emitNl p ++ b := by
  cases b with
  | nil => simp [collapseGo]
  | cons c b =>
    have hc : c ≠ '\n' := hb c (by simp)
    have hb' : ∀ x ∈ b, x ≠ '\n' := fun x hx => hb x (by simp [hx])
    simp [collapseGo, hc, collapseGo_nlfree_id b hb']

theorem boldGo_start_append_starfree (wrap : List Char → List Char)
    (a rest : List Char) (ha : ∀ c ∈ a, c ≠ '*') :
    boldGo wrap .start (a ++ rest) = a ++ boldGo wrap .start rest := by
  induction a with
  | nil => simp
  | cons c a ih =>
    have hc : c ≠ '*' := ha c (by simp)
    have ha' : ∀ x ∈ a, x ≠ '*' := fun x hx => ha x (by simp [hx])
    simp [boldGo, hc, ih ha']

theorem boldGo_start_starfree (wrap : List Char → List Char)
    (l : List Char) (h : ∀ c ∈ l, c ≠ '*') :
    boldGo wrap .start l = l := by
  have := boldGo_start_append_starfree wrap l [] h
  simpa [boldGo] using this

theorem boldGo_inside_accum (wrap : List Char → List Char)
    (u run rest : List Char) (hu : ∀ c ∈ u, c ≠ '*') :
    boldGo wrap (.inside run) (u ++ rest) = boldGo wrap (.inside (run ++ u)) rest := by
  induction u generalizing run with
  | nil => simp
  | cons c u ih =>
    have hc : c ≠ '*' := hu c (by simp)
    have hu' : ∀ x ∈ u, x ≠ '*' := fun x hx => hu x (by simp [hx])
    simp only [List.cons_append, boldGo, if_neg hc, List.append_eq]
    rw [ih (run ++ [c]) hu']
    simp

theorem boldGo_exact_span (wrap : List Char → List Char)
    (t : List Char) (hne : t ≠ []) (ht : ∀ c ∈ t, c ≠ '*') :
    boldGo wrap .start ('*' :: '*' :: (t ++ ['*', '*'])) = wrap t := by
  have hemp : t.isEmpty = false := by
    cases t with
    | nil => exact absurd rfl hne
    | cons _ _ => rfl
  simp only [boldGo, if_pos rfl]
  rw [boldGo_inside_accum wrap t [] ['*', '*'] ht]
  simp [boldGo, hemp]

theorem delimGo_some_accum (d : Char) (wrap : List Char → List Char)
    (u run rest : List Char) (hu : ∀ c ∈ u, c ≠ d) :
    delimGo d wrap (some run) (u ++ rest) = delimGo d wrap (some (run ++ u)) rest := by
  induction u generalizing run with
  | nil => simp
  | cons c u ih =>
    have hc : c ≠ d := hu c (by simp)
    have hu' : ∀ x ∈ u, x ≠ d := fun x hx => hu x (by simp [hx])
    simp only [List.cons_append, delimGo, if_neg hc, List.append_eq]
    rw [ih (run ++ [c]) hu']
    simp

theorem delimGo_none_append_free (d : Char) (wrap : List Char → List Char)
    (a rest : List Char) (ha : ∀ c ∈ a, c ≠ d) :
    delimGo d wrap none (a ++ rest) = a ++ delimGo d wrap none rest := by
  induction a with
  | nil => simp
  | cons c a ih =>
    have hc : c ≠ d := ha c (by simp)
    have ha' : ∀ x ∈ a, x ≠ d := fun x hx => ha x (by simp [hx])
    simp [delimGo, hc, ih ha']

theorem delimGo_none_free (d : Char) (wrap : List Char → List Char)
    (l : List Char) (h : ∀ c ∈ l, c ≠ d) :
    delimGo d wrap none l = l := by
  have := delimGo_none_append_free d wrap l [] h
  simpa [delimGo] using this

theorem delimGo_exact_span (d : Char) (wrap : List Char → List Char)
    (t : List Char) (hne : t ≠ []) (ht : ∀ c ∈ t, c ≠ d) :
    delimGo d wrap none (d :: (t ++ [d])) = wrap t := by
  have hemp : t.isEmpty = false := by
    cases t with
    | nil => exact absurd rfl hne
    | cons _ _ => rfl
  simp only [delimGo, if_pos rfl]
  rw [delimGo_some_accum d wrap t [] [d] ht]
  simp [delimGo, hemp]

theorem splitNl_ne_nil (l : List Char) : splitNl l ≠ [] := by
  obtain ⟨r, hr⟩ := splitNl_head l
  simp [hr]

theorem mem_splitNl (c : Char) (ln l : List Char)
    (hln : ln ∈ splitNl l) (hc : c ∈ ln) : c ∈ l := by
  induction l generalizing ln with
  | nil =>
    simp [splitNl] at hln
    subst hln
    exact absurd hc (by simp)
  | cons a rest ih =>
    cases hsp : splitNl rest with
    | nil => exact absurd hsp (splitNl_ne_nil rest)
    | cons h tl =>
      by_cases hEq : a = '\n'
      · subst hEq
        simp [splitNl, hsp] at hln
        rcases hln with hln | hln | hln
        · subst hln; exact absurd hc (by simp)
        · exact List.mem_cons_of_mem _ (ih h (by simp [hsp]) (hln ▸ hc))
        · exact List.mem_cons_of_mem _ (ih ln (by simp [hsp, hln]) hc)
      · simp [splitNl, hsp, hEq] at hln
        rcases hln with hln | hln
        · subst hln
          rcases List.mem_cons.mp hc with h1 | h1
          · simp [h1]
          · exact List.mem_cons_of_mem _ (ih h (by simp [hsp]) h1)
        · exact List.mem_cons_of_mem _ (ih ln (by simp [hsp, hln]) hc)

theorem mem_joinNl (c : Char) (ls : List (List Char)) (hc : c ∈ joinNl ls) :
    c = '\n' ∨ ∃ ln ∈ ls, c ∈ ln := by
  induction ls with
  | nil => exact absurd hc (by simp [joinNl])
  | cons x ys ih =>
    cases ys with
    | nil =>
      right
      exact ⟨x, by simp, by simpa [joinNl] using hc⟩
    | cons y rest =>
      simp only [joinNl, List.mem_append, List.mem_cons] at hc
      rcases hc with hx | hnl | hrec
      · exact Or.inr ⟨x, by simp, hx⟩
      · exact Or.inl hnl
      · rcases ih hrec with h | ⟨ln, hln, hcln⟩
        · exact Or.inl h
        · exact Or.inr ⟨ln, by simp [List.mem_cons] at hln ⊢; tauto, hcln⟩

theorem boldGo_single_star_span (wrap : List Char → List Char)
    (t : List Char) (hne : t ≠ []) (ht : ∀ c ∈ t, c ≠ '*') :
    boldGo wrap .start ('*' :: (t ++ ['*'])) = '*' :: (t ++ ['*']) := by
  cases t with
  | nil => exact absurd rfl hne
  | cons c t' =>
    have hc : c ≠ '*' := ht c (by simp)
    have ht' : ∀ x ∈ t', x ≠ '*' := fun x hx => ht x (by simp [hx])
    simp only [List.cons_append, boldGo, if_neg hc, List.append_eq, if_true]
    rw [boldGo_start_append_starfree wrap t' ['*'] ht']
    simp [boldGo]

theorem chalkWrap_free (lvl : Nat) (o cl : String) (t : List Char) (ch : Char)
    (ho : ∀ c ∈ o.data, c ≠ ch) (hcl : ∀ c ∈ cl.data, c ≠ ch)
    (ht : ∀ c ∈ t, c ≠ ch) :
    ∀ c ∈ chalkWrap lvl o cl t, c ≠ ch := by
  intro c hc
  unfold chalkWrap at hc
  split at hc
  · exact ht c hc
  · simp only [List.mem_append] at hc
    rcases hc with (hc | hc) | hc
    · exact ho c hc
    · exact ht c hc
    · exact hcl c hc

theorem mem_addMargin (c : Char) (l : List Char) (hc : c ∈ addMargin l) :
    c = ' ' ∨ c = '\n' ∨ c ∈ l := by
  rcases mem_joinNl c _ hc with h | ⟨ln, hln, hcln⟩
  · exact Or.inr (Or.inl h)
  · rcases List.mem_map.mp hln with ⟨ln0, hln0, rfl⟩
    rcases List.mem_cons.mp hcln with h1 | h1
    · exact Or.inl h1
    rcases List.mem_cons.mp h1 with h2 | h2
    · exact Or.inl h2
    · exact Or.inr (Or.inr (mem_splitNl c ln0 l hln0 h2))

theorem noCharMargin (ch : Char) (m : List Char)
    (hsp : ch ≠ ' ') (hnl : ch ≠ '\n') (hm : ∀ c ∈ m, c ≠ ch) :
    containsChar (String.mk (addMargin m)) ch = false := by
  unfold containsChar
  rw [List.any_eq_false]
  intro x hx
  simp only [decide_eq_true_eq]
  intro hxe
  subst hxe
  rcases mem_addMargin x m hx with h | h | h
  · exact hsp h
  · exact hnl h
  · exact hm x h rfl

/-! ## Lemmas about the state machine -/

theorem up_index_eq (s N : Nat) (hN : 0 < N) (hs : s < N) :
    (if s > 0 then s - 1 else N - 1) = (s + N - 1) % N := by
  rcases Nat.eq_zero_or_pos s with rfl | hpos
  · have h1 : 0 + N - 1 = N - 1 := by omega
    rw [if_neg (by omega), h1, Nat.mod_eq_of_lt (by omega)]
  · have h1 : s + N - 1 = (s - 1) + N := by omega
    rw [if_pos hpos, h1, Nat.add_mod_right]
    exact (Nat.mod_eq_of_lt (by omega)).symm

theorem down_index_eq (s N : Nat) (hN : 0 < N) (hs : s < N) :
    (if s < N - 1 then s + 1 else 0) = (s + 1) % N := by
  by_cases h : s < N - 1
  · rw [if_pos h]
    exact (Nat.mod_eq_of_lt (by omega)).symm
  · have hs1 : s = N - 1 := by omega
    have h2 : N - 1 + 1 = N := by omega
    rw [if_neg h, hs1, h2, Nat.mod_self]

theorem upKey_step (fs : String → Option String) (files : List String)
    (st : BrowserState) (key : String)
    (hN : 0 < activeLen files st) (hsel : st.selected < activeLen files st)
    (hkey : isUpKey st.searchMode key = true) :
    inputHandler fs files st key =
      .ok { st with selected :=
        (st.selected + activeLen files st - 1) % activeLen files st } [.redraw] := by
  cases hsm : st.searchMode with
  | true =>
    rw [hsm] at hkey
    have hk : key = "\x1B[A" := by simpa [isUpKey] using hkey
    subst hk
    have hN' : 0 < st.searchResults.length := by
      simpa [activeLen, hsm] using hN
    have hsel' : st.selected < st.searchResults.length := by
      simpa [activeLen, hsm] using hsel
    simp only [inputHandler, hsm, activeLen]
    simp [hN', up_index_eq st.selected _ hN' hsel']
  | false =>
    rw [hsm] at hkey
    have hsel' : st.selected < files.length := by
      simpa [activeLen, hsm] using hsel
    have hN' : 0 < files.length := by
      simpa [activeLen, hsm] using hN
    have hk : key = "\x1B[A" ∨ key = "k" := by
      simpa [isUpKey] using hkey
    rcases hk with hk | hk <;> subst hk <;>
      simp only [inputHandler, hsm, activeLen] <;>
      simp [up_index_eq st.selected _ hN' hsel']

theorem downKey_step (fs : String → Option String) (files : List String)
    (st : BrowserState) (key : String)
    (hN : 0 < activeLen files st) (hsel : st.selected < activeLen files st)
    (hkey : isDownKey st.searchMode key = true) :
    inputHandler fs files st key =
      .ok { st with selected :=
        (st.selected + 1) % activeLen files st } [.redraw] := by
  cases hsm : st.searchMode with
  | true =>
    rw [hsm] at hkey
    have hk : key = "\x1B[B" := by simpa [isDownKey] using hkey
    subst hk
    have hN' : 0 < st.searchResults.length := by
      simpa [activeLen, hsm] using hN
    have hsel' : st.selected < st.searchResults.length := by
      simpa [activeLen, hsm] using hsel
    simp only [inputHandler, hsm, activeLen]
    simp [hN', down_index_eq st.selected _ hN' hsel']
  | false =>
    rw [hsm] at hkey
    have hsel' : st.selected < files.length := by
      simpa [activeLen, hsm] using hsel
    have hN' : 0 < files.length := by
      simpa [activeLen, hsm] using hN
    have hk : key = "\x1B[B" ∨ key = "j" := by
      simpa [isDownKey] using hkey
    rcases hk with hk | hk <;> subst hk <;>
      simp only [inputHandler, hsm, activeLen] <;>
      simp [down_index_eq st.selected _ hN' hsel']

theorem runKeys_upDown_invariant (fs : String → Option String) (files : List String) :
    ∀ (keys : List String) (st : BrowserState),
      0 < activeLen files st → st.selected < activeLen files st →
      (∀ k ∈ keys, isUpKey st.searchMode k = true ∨ isDownKey st.searchMode k = true) →
      (runKeys fs files st keys).selected < activeLen files (runKeys fs files st keys) ∧
      (runKeys fs files st keys).searchMode = st.searchMode ∧
      activeLen files (runKeys fs files st keys) = activeLen files st := by
  intro keys
  induction keys with
  | nil => exact fun st _ h2 _ => ⟨h2, rfl, rfl⟩
  | cons k ks ih =>
    intro st hN hsel hkeys
    rcases hkeys k (by simp) with hk | hk
    · have hstep := upKey_step fs files st k hN hsel hk
      have hlt : (st.selected + activeLen files st - 1) % activeLen files st <
          activeLen files st := Nat.mod_lt _ hN
      simp only [runKeys, hstep]
      have hlen : activeLen files
          { st with selected :=
            (st.selected + activeLen files st - 1) % activeLen files st } =
          activeLen files st := by simp [activeLen]
      obtain ⟨a, b, c⟩ := ih
        { st with selected :=
            (st.selected + activeLen files st - 1) % activeLen files st }
        (by rw [hlen]; exact hN) (by rw [hlen]; exact hlt)
        (fun k' hk' => hkeys k' (by simp [hk']))
      exact ⟨a, b, c.trans hlen⟩
    · have hstep := downKey_step fs files st k hN hsel hk
      have hlt : (st.selected + 1) % activeLen files st < activeLen files st :=
        Nat.mod_lt _ hN
      simp only [runKeys, hstep]
      have hlen : activeLen files
          { st with selected := (st.selected + 1) % activeLen files st } =
          activeLen files st := by simp [activeLen]
      obtain ⟨a, b, c⟩ := ih
        { st with selected := (st.selected + 1) % activeLen files st }
        (by rw [hlen]; exact hN) (by rw [hlen]; exact hlt)
        (fun k' hk' => hkeys k' (by simp [hk']))
      exact ⟨a, b, c.trans hlen⟩

/-! ## Lemmas about the document store -/

theorem jsEndsWith_pjoin (dir name suf : String) (h : jsEndsWith name suf = true) :
    jsEndsWith (pjoin dir name) suf = true := by
  unfold jsEndsWith pjoin at *
  rw [List.isSuffixOf_iff_suffix] at h ⊢
  rw [String.data_append]
  exact h.trans (List.suffix_append _ _)

theorem walkEntries_perm_resolveSpec :
    ∀ (dir : String) (entries : List Entry),
    (walkEntries dir entries).Perm (resolveSpec dir entries)
  | _, [] => by simp [walkEntries, resolveSpec]
  | dir, .dir name children :: rest => by
    have h1 := walkEntries_perm_resolveSpec (pjoin dir name) children
    have h2 := walkEntries_perm_resolveSpec dir rest
    by_cases hc : ¬ jsStartsWith name "." ∧ name ≠ "node_modules"
    · simp only [walkEntries, resolveSpec, if_pos hc, findMarkdownFiles]
      exact ((List.mergeSort_perm _ _).trans h1).append h2
    · simp only [walkEntries, resolveSpec, if_neg hc]
      simpa using h2
  | dir, .file name :: rest => by
    have h2 := walkEntries_perm_resolveSpec dir rest
    by_cases hc : jsEndsWith name ".md" ∨ jsEndsWith name ".markdown"
    · simp only [walkEntries, resolveSpec, if_pos hc]
      exact (List.Perm.refl _).append h2
    · simp only [walkEntries, resolveSpec, if_neg hc]
      simpa using h2

theorem resolveSpec_all_markdown :
    ∀ (dir : String) (entries : List Entry), ∀ p ∈ resolveSpec dir entries,
      (jsEndsWith p ".md" || jsEndsWith p ".markdown") = true
  | _, [], _, hp => by simp [resolveSpec] at hp
  | dir, .dir name children :: rest, p, hp => by
    by_cases hc : ¬ jsStartsWith name "." ∧ name ≠ "node_modules"
    · simp only [resolveSpec, if_pos hc, List.mem_append] at hp
      rcases hp with hp | hp
      · exact resolveSpec_all_markdown (pjoin dir name) children p hp
      · exact resolveSpec_all_markdown dir rest p hp
    · simp only [resolveSpec, if_neg hc, List.nil_append] at hp
      exact resolveSpec_all_markdown dir rest p hp
  | dir, .file name :: rest, p, hp => by
    by_cases hc : jsEndsWith name ".md" ∨ jsEndsWith name ".markdown"
    · simp only [resolveSpec, if_pos hc, List.singleton_append, List.mem_cons] at hp
      rcases hp with rfl | hp
      · rcases hc with hc | hc
        · simp [jsEndsWith_pjoin dir name _ hc]
        · simp [jsEndsWith_pjoin dir name _ hc]
      · exact resolveSpec_all_markdown dir rest p hp
    · simp only [resolveSpec, if_neg hc, List.nil_append] at hp
      exact resolveSpec_all_markdown dir rest p hp

/-! ## Claim C3 -/

/-- C3: for every directory tree, `findMarkdownFiles` returns a list
that is sorted ascending (code-unit lexicographic, case-sensitive), is a
permutation of exactly the files the spec describes — collected with
`.`-prefixed and `node_modules` subtrees pruned before descent
(`resolveSpec` is that spec-worded collection) — and contains only paths
ending in `.md` or `.markdown`. -/
theorem C3_resolve_directory (dir : String) (entries : List Entry) :
    List.Sorted (· ≤ ·) (findMarkdownFiles dir entries) ∧
    (findMarkdownFiles dir entries).Perm (resolveSpec dir entries) ∧
    (findMarkdownFiles dir entries).all
      (fun p => jsEndsWith p ".md" || jsEndsWith p ".markdown") = true := by
  have hunf : findMarkdownFiles dir entries = sortPaths (walkEntries dir entries) := by
    simp [findMarkdownFiles]
  have hperm : (findMarkdownFiles dir entries).Perm (resolveSpec dir entries) := by
    rw [hunf]
    exact (List.mergeSort_perm _ _).trans (walkEntries_perm_resolveSpec dir entries)
  refine ⟨?_, hperm, ?_⟩
  · rw [hunf]
    exact List.sorted_mergeSort' _
  · rw [List.all_eq_true]
    intro p hp
    exact resolveSpec_all_markdown dir entries p (hperm.mem_iff.mp hp)

/-! ## Claim C2 -/

/-- C2, counterexample: with the color-disable variable set, the
rendering pipeline still emits terminal escape sequences — glow.js
forces `chalk.level = 3` at startup, so the styling passes inside
`render` wrap marker spans in SGR codes regardless of the environment.
Shown on the post-processing with the upstream conversion output
containing a bold span. -/
theorem C2_counterexample :
    containsEsc (renderPost (programChalkLevel true) "**x**") = true := by decide

/-- C2 (amended): the conventional color-disable variable does not
suppress styling codes: the program overwrites chalk's auto-detected
level (0 when the variable is set) with the forced level 3, so the
effective level is independent of the environment and rendered output
can contain escape sequences even with the variable set. -/
theorem C2_color_level_forced (noColorSet : Bool) :
    programChalkLevel noColorSet = 3 ∧
    programChalkLevel true ≠ chalkAutoLevel true ∧
    containsEsc (renderPost (programChalkLevel noColorSet) "**x**") = true := by
  cases noColorSet <;> exact ⟨rfl, by decide, by decide⟩

/-! ## Claim C4 -/

/-- C4, counterexample: a run of 2 consecutive blank lines (3 newline
characters) is not left unchanged — the blank-line post-processing
rewrites it to a single blank line, although the claim says runs of
fewer than 3 blank lines are preserved. -/
theorem C4_counterexample :
    collapseNewlines "a\n\n\nb" = "a\n\nb" ∧
    collapseNewlines "a\n\n\nb" ≠ "a\n\n\nb" := by decide

/-- C4 (amended): the blank-line post-processing collapses any maximal
run of 3 or more consecutive newline characters — that is, 2 or more
consecutive blank lines — to exactly two newlines (one blank line), and
leaves runs of fewer than 3 newlines (at most 1 blank line) unchanged. -/
theorem C4_newline_run_collapse (a b : List Char) (n : Nat)
    (ha : ∀ c ∈ a, c ≠ '\n') (hb : ∀ c ∈ b, c ≠ '\n') :
    collapseGo 0 (a ++ List.replicate n '\n' ++ b) =
      a ++ (if 3 ≤ n then ['\n', '\n'] else List.replicate n '\n') ++ b := by
  rw [List.append_assoc, collapseGo_append_nlfree a _ ha,
    collapseGo_replicate 0 n b, Nat.zero_add,
    collapseGo_pending_nlfree n b hb]
  simp [emitNl]

/-- Witness for C4 at a concrete input: a 4-newline run between `a` and
`b` collapses to two newlines. -/
theorem C4_witness :
    (∀ c ∈ ['a'], c ≠ '\n') ∧ (∀ c ∈ ['b'], c ≠ '\n') ∧
    collapseGo 0 (['a'] ++ List.replicate 4 '\n' ++ ['b']) =
      ['a'] ++ (if 3 ≤ 4 then ['\n', '\n'] else List.replicate 4 '\n') ++ ['b'] :=
  ⟨by decide, by decide, C4_newline_run_collapse ['a'] ['b'] 4 (by decide) (by decide)⟩

/-! ## Claim C5 -/

/-- C5, counterexample: an input whose upstream conversion output
contains an unpaired double-asterisk marker keeps the literal asterisks
through all three defensive passes: the rendered output of `**a` still
contains `*`. -/
theorem C5_counterexample :
    containsChar (renderPost 3 "**a") '*' = true ∧
    renderPost 3 "**a" = "  **a" := by decide

/-- C5 (amended): the defensive second pass re-interprets properly
paired markers: for any non-empty marker-free text `t`, rendering the
spans written with double asterisks, single asterisks or backticks
leaves no literal `*` or `` ` `` in the output; unpaired markers,
however, can survive (see the counterexample). -/
theorem C5_paired_markers_reinterpreted (t : List Char) (hne : t ≠ [])
    (ht : ∀ c ∈ t, c ≠ '*' ∧ c ≠ '`' ∧ c ≠ '\n') :
    (containsChar (renderPost 3 (String.mk ('*' :: '*' :: (t ++ ['*', '*'])))) '*' = false ∧
     containsChar (renderPost 3 (String.mk ('*' :: '*' :: (t ++ ['*', '*'])))) '`' = false) ∧
    (containsChar (renderPost 3 (String.mk ('*' :: (t ++ ['*'])))) '*' = false ∧
     containsChar (renderPost 3 (String.mk ('*' :: (t ++ ['*'])))) '`' = false) ∧
    (containsChar (renderPost 3 (String.mk ('`' :: (t ++ ['`'])))) '*' = false ∧
     containsChar (renderPost 3 (String.mk ('`' :: (t ++ ['`'])))) '`' = false) := by
  have htStar : ∀ c ∈ t, c ≠ '*' := fun c hc => (ht c hc).1
  have htTick : ∀ c ∈ t, c ≠ '`' := fun c hc => (ht c hc).2.1
  have htNl : ∀ c ∈ t, c ≠ '\n' := fun c hc => (ht c hc).2.2
  have mem1 : ∀ c ∈ '*' :: '*' :: (t ++ ['*', '*']), c = '*' ∨ c ∈ t := by
    intro c hc
    simp only [List.mem_cons, List.mem_append, List.mem_singleton] at hc
    tauto
  have mem2 : ∀ c ∈ '*' :: (t ++ ['*']), c = '*' ∨ c ∈ t := by
    intro c hc
    simp only [List.mem_cons, List.mem_append, List.mem_singleton] at hc
    tauto
  have mem3 : ∀ c ∈ '`' :: (t ++ ['`']), c = '`' ∨ c ∈ t := by
    intro c hc
    simp only [List.mem_cons, List.mem_append, List.mem_singleton] at hc
    tauto
  have hboldStar : ∀ c ∈ chalkBold 3 t, c ≠ '*' :=
    chalkWrap_free 3 _ _ t '*' (by decide) (by decide) htStar
  have hboldTick : ∀ c ∈ chalkBold 3 t, c ≠ '`' :=
    chalkWrap_free 3 _ _ t '`' (by decide) (by decide) htTick
  have hitStar : ∀ c ∈ chalkItalic 3 t, c ≠ '*' :=
    chalkWrap_free 3 _ _ t '*' (by decide) (by decide) htStar
  have hitTick : ∀ c ∈ chalkItalic 3 t, c ≠ '`' :=
    chalkWrap_free 3 _ _ t '`' (by decide) (by decide) htTick
  have hcodeStar : ∀ c ∈ chalkCodeBg 3 t, c ≠ '*' :=
    chalkWrap_free 3 _ _ t '*' (by decide) (by decide) htStar
  have hcodeTick : ∀ c ∈ chalkCodeBg 3 t, c ≠ '`' :=
    chalkWrap_free 3 _ _ t '`' (by decide) (by decide) htTick
  have hres1 : renderPostChars 3 ('*' :: '*' :: (t ++ ['*', '*'])) =
      addMargin (chalkBold 3 t) := by
    unfold renderPostChars
    rw [collapseGo_nlfree_id _ (fun c hc =>
        (mem1 c hc).elim (fun h => h ▸ by decide) (htNl c)),
      boldGo_exact_span _ t hne htStar,
      delimGo_none_free '*' _ _ hboldStar,
      delimGo_none_free '`' _ _ hboldTick]
  have hres2 : renderPostChars 3 ('*' :: (t ++ ['*'])) =
      addMargin (chalkItalic 3 t) := by
    unfold renderPostChars
    rw [collapseGo_nlfree_id _ (fun c hc =>
        (mem2 c hc).elim (fun h => h ▸ by decide) (htNl c)),
      boldGo_single_star_span _ t hne htStar,
      delimGo_exact_span '*' _ t hne htStar,
      delimGo_none_free '`' _ _ hitTick]
  have hres3 : renderPostChars 3 ('`' :: (t ++ ['`'])) =
      addMargin (chalkCodeBg 3 t) := by
    unfold renderPostChars
    have hstarfree : ∀ c ∈ '`' :: (t ++ ['`']), c ≠ '*' := fun c hc =>
      (mem3 c hc).elim (fun h => h ▸ by decide) (htStar c)
    rw [collapseGo_nlfree_id _ (fun c hc =>
        (mem3 c hc).elim (fun h => h ▸ by decide) (htNl c)),
      boldGo_start_starfree _ _ hstarfree,
      delimGo_none_free '*' _ _ hstarfree,
      delimGo_exact_span '`' _ t hne htTick]
  have key : ∀ s : List Char, renderPost 3 (String.mk s) =
      String.mk (renderPostChars 3 s) := fun _ => rfl
  refine ⟨⟨?_, ?_⟩, ⟨?_, ?_⟩, ⟨?_, ?_⟩⟩
  · rw [key, hres1]; exact noCharMargin '*' _ (by decide) (by decide) hboldStar
  · rw [key, hres1]; exact noCharMargin '`' _ (by decide) (by decide) hboldTick
  · rw [key, hres2]; exact noCharMargin '*' _ (by decide) (by decide) hitStar
  · rw [key, hres2]; exact noCharMargin '`' _ (by decide) (by decide) hitTick
  · rw [key, hres3]; exact noCharMargin '*' _ (by decide) (by decide) hcodeStar
  · rw [key, hres3]; exact noCharMargin '`' _ (by decide) (by decide) hcodeTick

/-- Witness for C5 at the concrete text `x`. -/
theorem C5_witness :
    (['x'] : List Char) ≠ [] ∧
    (∀ c ∈ (['x'] : List Char), c ≠ '*' ∧ c ≠ '`' ∧ c ≠ '\n') ∧
    containsChar (renderPost 3 (String.mk ('*' :: '*' :: (['x'] ++ ['*', '*'])))) '*' = false :=
  ⟨by decide, by decide,
    (C5_paired_markers_reinterpreted ['x'] (by decide) (by decide)).1.1⟩

/-! ## Claim C6 -/

/-- C6: on a non-empty active list of length `N` with an in-range
cursor, in both Browse and Search mode, an up key moves the cursor to
`(cursor + N - 1) % N` (that is, `(cursor - 1) mod N`), a down key moves
it to `(cursor + 1) % N`, both results are again in `[0, N)`, and after
any finite sequence of up/down key events the cursor is still in
`[0, N)`. -/
theorem C6_cursor_updown_wraparound (fs : String → Option String)
    (files : List String) (st : BrowserState)
    (hN : 0 < activeLen files st) (hsel : st.selected < activeLen files st) :
    (∀ key, isUpKey st.searchMode key = true →
      inputHandler fs files st key =
        .ok { st with selected :=
          (st.selected + activeLen files st - 1) % activeLen files st } [.redraw] ∧
      (st.selected + activeLen files st - 1) % activeLen files st <
        activeLen files st) ∧
    (∀ key, isDownKey st.searchMode key = true →
      inputHandler fs files st key =
        .ok { st with selected := (st.selected + 1) % activeLen files st } [.redraw] ∧
      (st.selected + 1) % activeLen files st < activeLen files st) ∧
    (∀ keys, (∀ k ∈ keys,
        isUpKey st.searchMode k = true ∨ isDownKey st.searchMode k = true) →
      (runKeys fs files st keys).selected < activeLen files st) := by
  refine ⟨?_, ?_, ?_⟩
  · exact fun key hkey =>
      ⟨upKey_step fs files st key hN hsel hkey, Nat.mod_lt _ hN⟩
  · exact fun key hkey =>
      ⟨downKey_step fs files st key hN hsel hkey, Nat.mod_lt _ hN⟩
  · intro keys hkeys
    obtain ⟨a, _, c⟩ := runKeys_upDown_invariant fs files keys st hN hsel hkeys
    rw [c] at a
    exact a

/-- Witness for C6: a two-file Browse list with the cursor at 0 — `k`
wraps the cursor up to 1, and a concrete up/down sequence stays in
range. -/
theorem C6_witness :
    0 < activeLen ["a.md", "b.md"] startSelectorState ∧
    startSelectorState.selected < activeLen ["a.md", "b.md"] startSelectorState ∧
    isUpKey startSelectorState.searchMode "k" = true ∧
    inputHandler fsHello ["a.md", "b.md"] startSelectorState "k" =
      .ok { startSelectorState with selected := 1 } [.redraw] ∧
    (runKeys fsHello ["a.md", "b.md"] startSelectorState ["k", "j", "j", "k"]).selected <
      activeLen ["a.md", "b.md"] startSelectorState :=
  ⟨by decide, by decide, by decide,
    ((C6_cursor_updown_wraparound fsHello ["a.md", "b.md"] startSelectorState
      (by decide) (by decide)).1 "k" (by decide)).1,
    (C6_cursor_updown_wraparound fsHello ["a.md", "b.md"] startSelectorState
      (by decide) (by decide)).2.2 ["k", "j", "j", "k"] (by decide)⟩

/-! ## Claim C7 -/

/-- C7: pressing Enter in Search mode with a non-empty result list and a
readable selected result opens the viewer on that result's file with
resume position equal to its matched line number; the `less` argument
vector receives the `+line` initial-position directive exactly when that
line is greater than 1; and the continuation installed for the viewer's
exit is `startSelectorState`: Browse mode, cursor 0, query and results
cleared, raw mode re-enabled. -/
theorem C7_open_search_result (fs : String → Option String) (files : List String)
    (st : BrowserState) (key : String) (r : SearchResult) (content tmpFile : String)
    (hsm : st.searchMode = true) (hkey : key = "\r" ∨ key = "\n")
    (hres : st.searchResults[st.selected]? = some r)
    (hread : fs r.file = some content) :
    inputHandler fs files st key =
      .ok { st with rawMode := false }
        [.clearScreen, .openViewer r.file r.relPath (some r.line) startSelectorState] ∧
    (1 < r.line → lessArgs (some r.line) tmpFile =
      lessBaseArgs ++ ["+" ++ toString r.line] ++ [tmpFile]) ∧
    (r.line ≤ 1 → lessArgs (some r.line) tmpFile = lessBaseArgs ++ [tmpFile]) ∧
    startSelectorState.searchMode = false ∧
    startSelectorState.selected = 0 ∧
    startSelectorState.searchQuery = "" ∧
    startSelectorState.searchResults = [] ∧
    startSelectorState.rawMode = true := by
  obtain ⟨hlen, -⟩ := List.getElem?_eq_some_iff.mp hres
  have hpos : 0 < st.searchResults.length := by omega
  refine ⟨?_, ?_, ?_, rfl, rfl, rfl, rfl, rfl⟩
  · rcases hkey with rfl | rfl <;>
      simp [inputHandler, hsm, hpos, hres, hread]
  · intro h
    simp [lessArgs, h]
  · intro h
    have : ¬ 1 < r.line := by omega
    simp [lessArgs, this]

/-- Witness for C7: opening the single search result (line 5) launches
the viewer with resume line 5, the `+5` directive is present, and the
installed continuation is the cleared Browse state. -/
theorem C7_witness :
    stNotes.searchMode = true ∧
    stNotes.searchResults[stNotes.selected]? =
      some ⟨"notes.md", "notes.md", "notes.md", 5, "Project Alpha kickoff"⟩ ∧
    fsNotes "notes.md" = some "one\ntwo\nthree\nfour\nProject Alpha kickoff\nsix" ∧
    (inputHandler fsNotes ["notes.md"] stNotes "\r" =
      .ok { stNotes with rawMode := false }
        [.clearScreen,
         .openViewer "notes.md" "notes.md" (some 5) startSelectorState] ∧
     (1 < 5 → lessArgs (some 5) "artifact.txt" =
        lessBaseArgs ++ ["+5"] ++ ["artifact.txt"]) ∧
     (5 ≤ 1 → lessArgs (some 5) "artifact.txt" = lessBaseArgs ++ ["artifact.txt"]) ∧
     startSelectorState.searchMode = false ∧
     startSelectorState.selected = 0 ∧
     startSelectorState.searchQuery = "" ∧
     startSelectorState.searchResults = [] ∧
     startSelectorState.rawMode = true) :=
  ⟨rfl, rfl, rfl,
    C7_open_search_result fsNotes ["notes.md"] stNotes "\r"
      ⟨"notes.md", "notes.md", "notes.md", 5, "Project Alpha kickoff"⟩
      "one\ntwo\nthree\nfour\nProject Alpha kickoff\nsix" "artifact.txt"
      rfl (Or.inl rfl) rfl rfl⟩

/-! ## Claim C8 -/

/-- C8, counterexample: when deletion of the transient file fails, the
close handler throws and the continuation does not run — the flow is
aborted, contradicting the claim that the continuation still runs. -/
theorem C8_counterexample :
    lessCloseHandler 0 false (some startSelectorState) = .threw "unlink failed" ∧
    lessCloseHandler 0 false (some startSelectorState) ≠
      .resumed startSelectorState := by decide

/-- C8 (amended): on viewer exit the transient-file deletion is
attempted unconditionally, whatever the child's exit code (the handler
ignores it); when the deletion succeeds the continuation (or the process
exit) runs, but when the deletion fails the exception propagates
uncaught and neither the continuation nor the process exit runs. -/
theorem C8_unlink_first_then_continuation (exitCode otherCode : Nat)
    (st : BrowserState) :
    lessCloseHandler exitCode true (some st) = .resumed st ∧
    lessCloseHandler exitCode true none = .exitedProcess ∧
    lessCloseHandler exitCode false (some st) = .threw "unlink failed" ∧
    lessCloseHandler exitCode false none = .threw "unlink failed" ∧
    lessCloseHandler exitCode true (some st) = lessCloseHandler otherCode true (some st) ∧
    lessCloseHandler exitCode false (some st) = lessCloseHandler otherCode false (some st) :=
  ⟨rfl, rfl, rfl, rfl, rfl, rfl⟩

/-! ## Claim C9 -/

/-- C9, counterexample: with the selected file unreadable, Enter in
Browse mode does not leave the machine in its mode at its cursor — the
uncaught `readFileSync` exception escapes the input handler (crashing
the process), with raw input mode already torn down (it was enabled
before the keystroke). -/
theorem C9_counterexample :
    inputHandler fsNone ["a.md"] startSelectorState "\r" =
      .threw "unreadable: a.md" { startSelectorState with rawMode := false } ∧
    startSelectorState.rawMode = true := by decide

/-- C9 (amended): a read failure during an open transition (Enter in
Browse mode on the selected file, or Enter in Search mode on a selected
result) is not caught: the handler propagates the exception instead of
reporting and staying in the current mode, and by the time of the throw
raw input mode has already been disabled and the screen cleared. -/
theorem C9_open_read_failure_uncaught (fs : String → Option String)
    (files : List String) (st : BrowserState) (key : String)
    (hkey : key = "\r" ∨ key = "\n") :
    (∀ f, st.searchMode = false → files[st.selected]? = some f → fs f = none →
      inputHandler fs files st key =
        .threw ("unreadable: " ++ f) { st with rawMode := false }) ∧
    (∀ r : SearchResult, st.searchMode = true →
      st.searchResults[st.selected]? = some r → fs r.file = none →
      inputHandler fs files st key =
        .threw ("unreadable: " ++ r.file) { st with rawMode := false }) := by
  constructor
  · intro f hsm hf hread
    rcases hkey with rfl | rfl <;> simp [inputHandler, hsm, hf, hread]
  · intro r hsm hr hread
    obtain ⟨hlen, -⟩ := List.getElem?_eq_some_iff.mp hr
    have hpos : 0 < st.searchResults.length := by omega
    rcases hkey with rfl | rfl <;> simp [inputHandler, hsm, hpos, hr, hread]

/-- Witness for C9 on a concrete unreadable file in Browse mode. -/
theorem C9_witness :
    ("\r" = "\r" ∨ ("\r" : String) = "\n") ∧
    startSelectorState.searchMode = false ∧
    (["b.md"][startSelectorState.selected]? = some "b.md") ∧
    fsNone "b.md" = none ∧
    inputHandler fsNone ["b.md"] startSelectorState "\r" =
      .threw ("unreadable: " ++ "b.md") { startSelectorState with rawMode := false } :=
  ⟨Or.inl rfl, rfl, rfl, rfl,
    (C9_open_read_failure_uncaught fsNone ["b.md"] startSelectorState "\r"
      (Or.inl rfl)).1 "b.md" rfl rfl rfl⟩

/-! ## Claim C10 -/

/-- C10: pressing Enter in Search mode with an empty result list is a
complete no-op: the handler returns the state unchanged (mode still
Search, cursor, query and results untouched, raw mode still as it was)
and produces no effect at all — no viewer launch, not even a redraw. -/
theorem C10_enter_empty_results_noop (fs : String → Option String)
    (files : List String) (st : BrowserState) (key : String)
    (hsm : st.searchMode = true) (hres : st.searchResults = [])
    (hkey : key = "\r" ∨ key = "\n") :
    inputHandler fs files st key = .ok st [] := by
  rcases hkey with rfl | rfl <;> simp [inputHandler, hsm, hres]

/-- Witness for C10 at a concrete no-match search state. -/
theorem C10_witness :
    stNoMatches.searchMode = true ∧
    stNoMatches.searchResults = [] ∧
    (("\n" : String) = "\r" ∨ ("\n" : String) = "\n") ∧
    inputHandler fsHello ["a.md"] stNoMatches "\n" = .ok stNoMatches [] :=
  ⟨rfl, rfl, Or.inr rfl,
    C10_enter_empty_results_noop fsHello ["a.md"] stNoMatches "\n" rfl rfl (Or.inr rfl)⟩

end Mdview
